import Mathlib

/-!
Verification development for the event-ticket booking backend.

The model below is a shallow embedding of the FastAPI/SQLAlchemy service:
the per-event database state (capacity, cached occupancy counter, booking
rows, waitlist rows) is an explicit record, each route handler becomes a
pure function from the state and its request parameters to either an error
(the HTTPException the handler raises, under which no transaction is
committed) or the committed successor state, and the in-process fallback
cache is a key-to-entry map with explicit time.

Sources embedded:
  app/models/booking.py, event.py, waitlist.py  (data model)
  app/routers/bookings.py   (book_event, cancel_booking)
  app/routers/users.py      (book_ticket, users_cancel_booking)
  app/routers/waitlist.py   (join_waitlist, leave_waitlist,
                             move_from_waitlist_to_booking,
                             get_next_waitlist_position)
  app/cache/cache_utils.py  (in-memory fallback cache, invalidation helpers)
-/

/-- Members of the bookings.status enum in app/models/booking.py:
BOOKED and CANCELLED (note: there is no member named cancelled). -/
inductive BookingStatus where
  | BOOKED
  | CANCELLED
  deriving DecidableEq

/-- A row of the bookings table (app/models/booking.py). -/
structure Booking where
  id : Nat
  user_id : Nat
  status : BookingStatus
  deriving DecidableEq

/-- A row of the waitlists table (app/models/waitlist.py); joined_at is
omitted because no embedded operation reads it. -/
structure WaitlistEntry where
  id : Nat
  user_id : Nat
  position : Nat
  deriving DecidableEq

/-- State of one event row together with its booking rows, waitlist rows
and the set of existing user ids.  Routes are modelled for an event that
exists; the event-not-found branches of the handlers fall outside this
state.  booked_count is an Int because the column is a plain Integer that
the code decrements. -/
structure EventState where
  id : Nat
  capacity : Nat
  booked_count : Int
  bookings : List Booking
  waitlist : List WaitlistEntry
  users : List Nat
  deriving DecidableEq

/-- The distinct rejection outcomes (HTTPException detail strings) of the
embedded handlers, plus attributeError for the uncaught AttributeError
raised by users.py cancel_booking (see users_cancel_booking below). -/
inductive Err where
  | userNotFound
  | alreadyBooked
  | alreadyOnWaitlist
  | eventFull
  | eventFullyBooked
  | eventNotFull
  | activeBookingNotFound
  | bookingNotFound
  | attributeError
  | notOnWaitlist
  deriving DecidableEq

/-- The cache keys produced by the generators in app/cache/cache_utils.py:
events:all, event:{id}, user:{id}:bookings, analytics:data. -/
inductive CacheKey where
  | eventsAll
  | eventDetail (event_id : Nat)
  | userBookings (user_id : Nat)
  | analyticsData
  deriving DecidableEq

instance {ε α : Type} [DecidableEq ε] [DecidableEq α] : DecidableEq (Except ε α) := fun x y =>
  match x, y with
  | Except.error a, Except.error b =>
    if h : a = b then Decidable.isTrue (congrArg Except.error h)
    else Decidable.isFalse (fun hc => h (Except.error.inj hc))
  | Except.ok a, Except.ok b =>
    if h : a = b then Decidable.isTrue (congrArg Except.ok h)
    else Decidable.isFalse (fun hc => h (Except.ok.inj hc))
  | Except.error _, Except.ok _ => Decidable.isFalse (fun hc => Except.noConfusion hc)
  | Except.ok _, Except.error _ => Decidable.isFalse (fun hc => Except.noConfusion hc)

/-- Live count of rows with status BOOKED, as computed by the
query(Booking).filter(status == BOOKED).count() calls. -/
def countBooked (l : List Booking) : Nat :=
  l.countP (fun b => decide (b.status = BookingStatus.BOOKED))

/-- The existing-booking check: first row with this user and status BOOKED. -/
def hasActiveBooking (l : List Booking) (uid : Nat) : Bool :=
  (l.find? (fun b => decide (b.user_id = uid ∧ b.status = BookingStatus.BOOKED))).isSome

/-- The existing-waitlist-entry check: first waitlist row with this user. -/
def onWaitlist (wl : List WaitlistEntry) (uid : Nat) : Bool :=
  (wl.find? (fun w => decide (w.user_id = uid))).isSome

/-- func.max(Waitlist.position) over the rows of one event, with SQL NULL
(max of no rows) read back as 0 by the or-0 coalescing in the source. -/
def maxPosition (wl : List WaitlistEntry) : Nat :=
  wl.foldr (fun w m => max w.position m) 0

/-- get_next_waitlist_position from app/routers/waitlist.py:
(max position or 0) + 1. -/
def get_next_waitlist_position (wl : List WaitlistEntry) : Nat :=
  maxPosition wl + 1

/-- Fold selecting the row that order_by(position).first() returns: the
earliest row attaining the minimal position. -/
def minPosFold (e : WaitlistEntry) (es : List WaitlistEntry) : WaitlistEntry :=
  es.foldl (fun acc w => if w.position < acc.position then w else acc) e

/-- order_by(Waitlist.position).first() on the rows of one event. -/
def firstByPosition : List WaitlistEntry → Option WaitlistEntry
  | [] => none
  | e :: es => some (minPosFold e es)

/-- The renumbering applied to one surviving row when the row at position
p is removed: rows with position greater than p are decremented. -/
def shiftDown (p : Nat) (w : WaitlistEntry) : WaitlistEntry :=
  if p < w.position then { w with position := w.position - 1 } else w

/-- move_from_waitlist_to_booking from app/routers/waitlist.py.  pid is
the fresh primary key of the booking row created on promotion.  The
source deletes the fetched front row and then decrements every remaining
row whose position exceeds the deleted position; erasing first and then
shifting the survivors yields the same table. -/
def move_from_waitlist_to_booking (s : EventState) (pid : Nat) : EventState × Bool :=
  let active := countBooked s.bookings
  if s.capacity ≤ active then (s, false)
  else
    match firstByPosition s.waitlist with
    | none => (s, false)
    | some e =>
      ({ s with
          bookings := s.bookings ++
            [{ id := pid, user_id := e.user_id, status := BookingStatus.BOOKED }],
          waitlist := (s.waitlist.eraseP (fun w => decide (w.position = e.position))).map
            (shiftDown e.position),
          booked_count := (active : Int) + 1 }, true)

/-- The read/decision phase of book_event (app/routers/bookings.py):
user-exists check, duplicate-booking check, duplicate-waitlist check,
then the fullness check against the live BOOKED count.  On success it
returns the active_bookings value the handler read, which the write phase
uses (the handler executes both phases inside one request without any
row lock or serialization). -/
def book_event_check (s : EventState) (uid : Nat) : Except Err Nat :=
  if ¬ uid ∈ s.users then Except.error Err.userNotFound
  else if hasActiveBooking s.bookings uid then Except.error Err.alreadyBooked
  else if onWaitlist s.waitlist uid then Except.error Err.alreadyOnWaitlist
  else
    let active := countBooked s.bookings
    if s.capacity ≤ active then Except.error Err.eventFull
    else Except.ok active

/-- The write/commit phase of book_event: insert the booking row and set
booked_count to the previously read active count plus one. -/
def book_event_commit (s : EventState) (uid bid active : Nat) : EventState :=
  { s with
      bookings := s.bookings ++
        [{ id := bid, user_id := uid, status := BookingStatus.BOOKED }],
      booked_count := (active : Int) + 1 }

/-- POST /bookings/book/{event_id} (book_event in app/routers/bookings.py),
run as one uninterrupted check-then-commit sequence.  bid is the fresh
primary key of the inserted booking row. -/
def book_event (s : EventState) (uid bid : Nat) : Except Err EventState :=
  match book_event_check s uid with
  | Except.error e => Except.error e
  | Except.ok active => Except.ok (book_event_commit s uid bid active)

/-- invalidate_event_caches from app/cache/cache_utils.py, as the list of
keys it deletes: events:all, analytics:data, and (only when the id is
truthy, i.e. nonzero) event:{id}. -/
def invalidate_event_caches (event_id : Nat) : List CacheKey :=
  [CacheKey.eventsAll, CacheKey.analyticsData] ++
    (if event_id = 0 then [] else [CacheKey.eventDetail event_id])

/-- invalidate_user_booking_cache from app/cache/cache_utils.py. -/
def invalidate_user_booking_cache (user_id : Nat) : List CacheKey :=
  [CacheKey.userBookings user_id]

/-- POST /users/events/{event_id}/book (book_ticket in app/routers/users.py).
It locks the event row, tests the cached booked_count counter against the
capacity, inserts a booking row without any duplicate-booking or waitlist
check, increments the counter, and deletes the event and user cache keys.
The returned list is the keys it deleted. -/
def book_ticket (s : EventState) (uid bid : Nat) :
    Except Err (EventState × List CacheKey) :=
  if (s.capacity : Int) ≤ s.booked_count then Except.error Err.eventFullyBooked
  else
    Except.ok
      ({ s with
          bookings := s.bookings ++
            [{ id := bid, user_id := uid, status := BookingStatus.BOOKED }],
          booked_count := s.booked_count + 1 },
        invalidate_event_caches s.id ++ invalidate_user_booking_cache uid)

/-- The mutation cancel_booking performs on the bookings table: the first
row matching id == booking_id and status == BOOKED is set to CANCELLED. -/
def cancelFirstActive : List Booking → Nat → List Booking
  | [], _ => []
  | b :: bs, bid =>
    if b.id = bid ∧ b.status = BookingStatus.BOOKED then
      { b with status := BookingStatus.CANCELLED } :: bs
    else b :: cancelFirstActive bs bid

/-- DELETE /bookings/cancel/{booking_id} (cancel_booking in
app/routers/bookings.py).  A booking that exists but is already CANCELLED
and a booking id that does not exist both fall into the same None branch
of the filtered query and get the same 404 Active booking not found.  On
success the handler then runs one promotion attempt; pid is the fresh key
for a promoted booking row.  The Bool is whether a promotion occurred. -/
def cancel_booking (s : EventState) (bid pid : Nat) : Except Err (EventState × Bool) :=
  match s.bookings.find? (fun b => decide (b.id = bid ∧ b.status = BookingStatus.BOOKED)) with
  | none => Except.error Err.activeBookingNotFound
  | some _ =>
    let s1 : EventState :=
      { s with
          bookings := cancelFirstActive s.bookings bid,
          booked_count := max 0 (s.booked_count - 1) }
    Except.ok (move_from_waitlist_to_booking s1 pid)

/-- POST /users/bookings/{booking_id}/cancel (cancel_booking in
app/routers/users.py).  When no booking row matches, it raises 404
Booking not found.  When a row is found, the guard compares
booking.status against BookingStatus.cancelled, but the enum has no
member named cancelled (only BOOKED and CANCELLED), so attribute lookup
raises AttributeError before any mutation: the handler can never commit
a cancellation. -/
def users_cancel_booking (s : EventState) (bid : Nat) : Except Err EventState :=
  match s.bookings.find? (fun b => decide (b.id = bid)) with
  | none => Except.error Err.bookingNotFound
  | some _ => Except.error Err.attributeError

/-- POST /waitlist/join/{event_id} (join_waitlist in app/routers/waitlist.py):
user-exists, duplicate-booking and duplicate-waitlist checks, then the
event must be full against the live BOOKED count; the new entry gets
position (max position or 0) + 1.  wid is the fresh row key; the returned
entry is the response body. -/
def join_waitlist (s : EventState) (uid wid : Nat) :
    Except Err (EventState × WaitlistEntry) :=
  if ¬ uid ∈ s.users then Except.error Err.userNotFound
  else if hasActiveBooking s.bookings uid then Except.error Err.alreadyBooked
  else if onWaitlist s.waitlist uid then Except.error Err.alreadyOnWaitlist
  else
    let active := countBooked s.bookings
    if active < s.capacity then Except.error Err.eventNotFull
    else
      let entry : WaitlistEntry :=
        { id := wid, user_id := uid, position := get_next_waitlist_position s.waitlist }
      Except.ok ({ s with waitlist := s.waitlist ++ [entry] }, entry)

/-- DELETE /waitlist/leave/{event_id} (leave_waitlist in
app/routers/waitlist.py).  The source decrements every row whose position
exceeds the position of the found entry and then deletes that entry;
erasing the entry first and shifting the survivors yields the same table. -/
def leave_waitlist (s : EventState) (uid : Nat) : Except Err EventState :=
  match s.waitlist.find? (fun w => decide (w.user_id = uid)) with
  | none => Except.error Err.notOnWaitlist
  | some e =>
    Except.ok
      { s with
          waitlist := (s.waitlist.eraseP (fun w => decide (w.user_id = uid))).map
            (shiftDown e.position) }

/-- One state-changing request against the event, with the fresh primary
keys a successful insert would receive. -/
inductive Op where
  | bookEvent (uid bid : Nat)
  | bookTicket (uid bid : Nat)
  | cancel (bid pid : Nat)
  | usersCancel (bid : Nat)
  | join (uid wid : Nat)
  | leave (uid : Nat)
  | promote (pid : Nat)
  deriving DecidableEq

/-- Committed successor state of one request: a handler that raises an
HTTPException (or the AttributeError of users_cancel_booking) never
commits, so the state is unchanged on the error branch. -/
def applyOp (s : EventState) : Op → EventState
  | Op.bookEvent uid bid =>
    match book_event s uid bid with
    | Except.ok s1 => s1
    | Except.error _ => s
  | Op.bookTicket uid bid =>
    match book_ticket s uid bid with
    | Except.ok r => r.1
    | Except.error _ => s
  | Op.cancel bid pid =>
    match cancel_booking s bid pid with
    | Except.ok r => r.1
    | Except.error _ => s
  | Op.usersCancel bid =>
    match users_cancel_booking s bid with
    | Except.ok s1 => s1
    | Except.error _ => s
  | Op.join uid wid =>
    match join_waitlist s uid wid with
    | Except.ok r => r.1
    | Except.error _ => s
  | Op.leave uid =>
    match leave_waitlist s uid with
    | Except.ok s1 => s1
    | Except.error _ => s
  | Op.promote pid => (move_from_waitlist_to_booking s pid).1

/-- Run a sequence of requests. -/
def runOps (s : EventState) (ops : List Op) : EventState :=
  ops.foldl applyOp s

/-- Cache keys deleted by each handler.  Only book_ticket in
app/routers/users.py calls the invalidation helpers; bookings.py and
waitlist.py import no cache function, and users_cancel_booking raises
before it reaches its invalidation calls. -/
def opDeletedKeys (s : EventState) : Op → List CacheKey
  | Op.bookEvent _ _ => []
  | Op.bookTicket uid bid =>
    match book_ticket s uid bid with
    | Except.ok r => r.2
    | Except.error _ => []
  | Op.cancel _ _ => []
  | Op.usersCancel _ => []
  | Op.join _ _ => []
  | Op.leave _ => []
  | Op.promote _ => []

/-- An entry of the in-process fallback dict _memory_cache in
app/cache/cache_utils.py: the stored value and its absolute expiry time. -/
structure CacheEntry (α : Type) where
  value : α
  expiry : Nat

/-- The fallback dict, as a map from keys to optional entries. -/
def MemoryCache (α : Type) : Type := String → Option (CacheEntry α)

/-- set_cache on the fallback path: store the value with expiry now + ttl. -/
def set_cache {α : Type} (c : MemoryCache α) (key : String) (value : α)
    (ttl now : Nat) : MemoryCache α :=
  fun k => if k = key then some { value := value, expiry := now + ttl } else c k

/-- get_cache on the fallback path: return the value while expiry exceeds
the current time; once expired, delete the entry and return none. -/
def get_cache {α : Type} (c : MemoryCache α) (key : String) (now : Nat) :
    MemoryCache α × Option α :=
  match c key with
  | some data =>
    if now < data.expiry then (c, some data.value)
    else ((fun k => if k = key then none else c k), none)
  | none => (c, none)

/-- Contiguity of the waitlist positions of one event: the multiset of
positions is exactly 1..N for N the number of rows. -/
def contiguousPositions (wl : List WaitlistEntry) : Prop :=
  List.Perm (wl.map (fun w => w.position)) (List.range' 1 wl.length)

instance (wl : List WaitlistEntry) : Decidable (contiguousPositions wl) :=
  List.decidablePerm _ _

/-- Success shape of the book_event decision phase: the returned value is
the live BOOKED count that was read, and that count was below capacity. -/
lemma book_event_check_ok {s : EventState} {uid a : Nat}
    (h : book_event_check s uid = Except.ok a) :
    a = countBooked s.bookings ∧ countBooked s.bookings < s.capacity := by
  unfold book_event_check at h
  split at h
  · exact Except.noConfusion h
  split at h
  · exact Except.noConfusion h
  split at h
  · exact Except.noConfusion h
  dsimp only at h
  split at h
  · exact Except.noConfusion h
  next hfull =>
    injection h with h1
    exact ⟨h1.symm, Nat.not_le.mp hfull⟩

/-- An event with one free seat and two distinct would-be bookers, the
situation of the concurrency requirement. -/
def raceState : EventState :=
  { id := 1, capacity := 1, booked_count := 0, bookings := [], waitlist := [], users := [1, 2] }

/-- C1: the handler book_event runs its capacity check and its insert as
two separate database operations with no row lock or serialization, so
two concurrent requests can interleave as read(1), read(2), write(1),
write(2).  Evaluated at capacity 1 with no bookings: both decision phases
accept (both read a live count of 0), both commits land, and the event
ends with two BOOKED bookings against capacity 1 — both calls succeeded,
contradicting exactly-one-success. -/
theorem concurrent_book_event_overallocates :
    book_event_check raceState 1 = Except.ok 0 ∧
    book_event_check raceState 2 = Except.ok 0 ∧
    countBooked (book_event_commit (book_event_commit raceState 1 101 0) 2 102 0).bookings = 2 ∧
    (book_event_commit (book_event_commit raceState 1 101 0) 2 102 0).capacity = 1 ∧
    (book_event_commit (book_event_commit raceState 1 101 0) 2 102 0).booked_count = 1 := by
  decide

/-- An event where user 7 already holds a BOOKED booking and a free seat
remains. -/
def dupState : EventState :=
  { id := 1, capacity := 2, booked_count := 1,
    bookings := [{ id := 1, user_id := 7, status := BookingStatus.BOOKED }],
    waitlist := [], users := [7] }

/-- C2: book_ticket (POST /users/events/{id}/book) performs no
duplicate-booking or waitlist check at all, so user 7, who already holds
a BOOKED booking, books again successfully and ends with two simultaneous
BOOKED bookings for the same event. -/
theorem book_ticket_allows_duplicate_hold :
    hasActiveBooking dupState.bookings 7 = true ∧
    book_ticket dupState 7 2 = Except.ok
      ({ id := 1, capacity := 2, booked_count := 2,
         bookings := [{ id := 1, user_id := 7, status := BookingStatus.BOOKED },
                      { id := 2, user_id := 7, status := BookingStatus.BOOKED }],
         waitlist := [], users := [7] },
       [CacheKey.eventsAll, CacheKey.analyticsData, CacheKey.eventDetail 1,
        CacheKey.userBookings 7]) ∧
    ([{ id := 1, user_id := 7, status := BookingStatus.BOOKED },
      { id := 2, user_id := 7, status := BookingStatus.BOOKED }] : List Booking).countP
      (fun b => decide (b.user_id = 7 ∧ b.status = BookingStatus.BOOKED)) = 2 := by
  decide

/-- C9: a successful book via POST /bookings/book sets booked_count to
the live BOOKED count read before the insert plus one, regardless of the
value the counter held before, so this route resynchronizes a drifted
counter instead of incrementing it. -/
theorem book_event_resyncs_counter (s : EventState) (uid bid : Nat) (s1 : EventState)
    (h : book_event s uid bid = Except.ok s1) :
    s1.booked_count = (countBooked s.bookings : Int) + 1 := by
  unfold book_event at h
  cases hc : book_event_check s uid with
  | error e => rw [hc] at h; exact Except.noConfusion h
  | ok a =>
    rw [hc] at h
    injection h with h1
    obtain ⟨ha, _⟩ := book_event_check_ok hc
    subst h1
    rw [ha]
    rfl

/-- An event whose counter has drifted to 5 although only one BOOKED
booking exists (capacity 3). -/
def driftedState : EventState :=
  { id := 1, capacity := 3, booked_count := 5,
    bookings := [{ id := 1, user_id := 1, status := BookingStatus.BOOKED }],
    waitlist := [], users := [1, 2] }

theorem book_event_resyncs_counter_witness :
    (book_event_commit driftedState 2 9 1).booked_count =
      (countBooked driftedState.bookings : Int) + 1 :=
  book_event_resyncs_counter driftedState 2 9 (book_event_commit driftedState 2 9 1) (by decide)

/-- An event whose only booking (id 1) is already CANCELLED. -/
def releasedState : EventState :=
  { id := 1, capacity := 1, booked_count := 0,
    bookings := [{ id := 1, user_id := 3, status := BookingStatus.CANCELLED }],
    waitlist := [], users := [3] }

/-- C6 counterexample: cancelling the already-cancelled booking id 1 and
cancelling the nonexistent booking id 2 produce the identical rejection
(the filtered query returns None in both cases and the handler raises the
same 404 Active booking not found), so the rejection does not distinguish
ALREADY_RELEASED from NOT_FOUND. -/
theorem cancel_rejections_indistinguishable :
    cancel_booking releasedState 1 99 = Except.error Err.activeBookingNotFound ∧
    cancel_booking releasedState 2 99 = Except.error Err.activeBookingNotFound := by
  decide

/-- C6 (amended): when every booking row carrying the requested id is
already CANCELLED — which covers both a second cancel of the same id and
an id that never existed — the /bookings/cancel route deterministically
rejects without touching the state (so occupancy is never decremented
twice), but with the one uniform error for both situations; and the
/users cancel route, the only one that tries to distinguish the two
cases, answers 404 when the id is absent and otherwise raises
AttributeError (it references the nonexistent enum member
BookingStatus.cancelled), so it never completes a cancellation either. -/
theorem cancel_double_release_uniform_rejection (s : EventState) (bid pid : Nat)
    (h : ∀ b ∈ s.bookings, b.id = bid → b.status = BookingStatus.CANCELLED) :
    cancel_booking s bid pid = Except.error Err.activeBookingNotFound ∧
    applyOp s (Op.cancel bid pid) = s ∧
    (users_cancel_booking s bid = Except.error Err.bookingNotFound ∨
     users_cancel_booking s bid = Except.error Err.attributeError) := by
  have hf : s.bookings.find?
      (fun b => decide (b.id = bid ∧ b.status = BookingStatus.BOOKED)) = none := by
    rw [List.find?_eq_none]
    intro b hb
    simp only [decide_eq_true_eq]
    rintro ⟨h1, h2⟩
    have hcan := h b hb h1
    rw [hcan] at h2
    exact BookingStatus.noConfusion h2
  have hcerr : cancel_booking s bid pid = Except.error Err.activeBookingNotFound := by
    unfold cancel_booking
    rw [hf]
  refine ⟨hcerr, ?_, ?_⟩
  · have happ : applyOp s (Op.cancel bid pid) =
        (match cancel_booking s bid pid with
          | Except.ok r => r.1
          | Except.error _ => s) := rfl
    rw [happ, hcerr]
  · unfold users_cancel_booking
    cases hg : s.bookings.find? (fun b => decide (b.id = bid)) with
    | none => exact Or.inl rfl
    | some b => exact Or.inr rfl

theorem cancel_double_release_uniform_rejection_witness :
    cancel_booking releasedState 1 99 = Except.error Err.activeBookingNotFound ∧
    applyOp releasedState (Op.cancel 1 99) = releasedState ∧
    (users_cancel_booking releasedState 1 = Except.error Err.bookingNotFound ∨
     users_cancel_booking releasedState 1 = Except.error Err.attributeError) :=
  cancel_double_release_uniform_rejection releasedState 1 99 (by decide)

/-- C7: a join succeeds only when the live BOOKED count has reached the
capacity, and the accepted entry gets position (max position or 0) + 1,
which is 1 on an empty waitlist since maxPosition of an empty list is 0;
conversely, an otherwise-valid join request (existing user, no BOOKED
booking, not already queued) against a non-full event is rejected with
the event-not-full error. -/
theorem join_requires_full_event (s : EventState) (uid wid : Nat)
    (s1 : EventState) (e : WaitlistEntry) :
    (join_waitlist s uid wid = Except.ok (s1, e) →
      s.capacity ≤ countBooked s.bookings ∧
      e.position = maxPosition s.waitlist + 1) ∧
    (uid ∈ s.users → hasActiveBooking s.bookings uid = false →
      onWaitlist s.waitlist uid = false → countBooked s.bookings < s.capacity →
      join_waitlist s uid wid = Except.error Err.eventNotFull) := by
  constructor
  · intro h
    unfold join_waitlist at h
    split at h
    · exact Except.noConfusion h
    split at h
    · exact Except.noConfusion h
    split at h
    · exact Except.noConfusion h
    dsimp only at h
    split at h
    · exact Except.noConfusion h
    next hfull =>
      injection h with h1
      have he : e = ⟨wid, uid, get_next_waitlist_position s.waitlist⟩ := by
        have h2 := congrArg Prod.snd h1
        exact h2.symm
      refine ⟨Nat.not_lt.mp hfull, ?_⟩
      rw [he]
      rfl
  · intro h1 h2 h3 h4
    unfold join_waitlist
    rw [if_neg (not_not_intro h1)]
    rw [if_neg (by simp [h2])]
    rw [if_neg (by simp [h3])]
    dsimp only
    rw [if_pos h4]

/-- A full event (capacity 1, one BOOKED booking) with an empty waitlist
and a second user able to join it. -/
def fullState : EventState :=
  { id := 2, capacity := 1, booked_count := 1,
    bookings := [{ id := 1, user_id := 1, status := BookingStatus.BOOKED }],
    waitlist := [], users := [1, 5] }

theorem join_requires_full_event_witness :
    (fullState.capacity ≤ countBooked fullState.bookings ∧
      ({ id := 9, user_id := 5, position := 1 } : WaitlistEntry).position =
        maxPosition fullState.waitlist + 1) ∧
    join_waitlist raceState 2 9 = Except.error Err.eventNotFull :=
  ⟨(join_requires_full_event fullState 5 9
      { fullState with waitlist := [{ id := 9, user_id := 5, position := 1 }] }
      { id := 9, user_id := 5, position := 1 }).1 (by decide),
   (join_requires_full_event raceState 2 9 raceState
      { id := 0, user_id := 0, position := 0 }).2 (by decide) (by decide) (by decide)
      (by decide)⟩

/-- C8 counterexample: a successful book via POST /bookings/book (here at
capacity 1 with an empty event) deletes no cache key at all — in
particular not the event-listing, event-detail or user-history keys —
because bookings.py imports no cache function. -/
theorem book_event_deletes_no_cache_keys :
    book_event raceState 1 5 = Except.ok (book_event_commit raceState 1 5 0) ∧
    opDeletedKeys raceState (Op.bookEvent 1 5) = [] := by
  exact ⟨rfl, rfl⟩

/-- C8 (amended): of the state-changing handlers, only book_ticket
(POST /users/events/{id}/book) deletes the listing, analytics, event
detail and user-history keys on success; book via /bookings/book, cancel
via /bookings/cancel, join, leave and promote delete no cache key, and
the /users cancel route never reaches its invalidation calls because it
raises first (see users_cancel_booking). -/
theorem cache_invalidation_only_in_users_book (s : EventState)
    (uid bid pid wid : Nat) (s1 : EventState) (ks : List CacheKey)
    (hok : book_ticket s uid bid = Except.ok (s1, ks)) (hid : s.id ≠ 0) :
    ks = [CacheKey.eventsAll, CacheKey.analyticsData, CacheKey.eventDetail s.id,
      CacheKey.userBookings uid] ∧
    opDeletedKeys s (Op.bookEvent uid bid) = [] ∧
    opDeletedKeys s (Op.cancel bid pid) = [] ∧
    opDeletedKeys s (Op.usersCancel bid) = [] ∧
    opDeletedKeys s (Op.join uid wid) = [] ∧
    opDeletedKeys s (Op.leave uid) = [] ∧
    opDeletedKeys s (Op.promote pid) = [] := by
  refine ⟨?_, rfl, rfl, rfl, rfl, rfl, rfl⟩
  unfold book_ticket at hok
  split at hok
  · exact Except.noConfusion hok
  · injection hok with h1
    have h2 := congrArg Prod.snd h1
    simp only at h2
    rw [← h2]
    unfold invalidate_event_caches invalidate_user_booking_cache
    rw [if_neg hid]
    rfl

/-- The successor state of the witness booking through book_ticket. -/
def usersBookedState : EventState :=
  { id := 1, capacity := 1, booked_count := 1,
    bookings := [{ id := 5, user_id := 1, status := BookingStatus.BOOKED }],
    waitlist := [], users := [1, 2] }

theorem cache_invalidation_only_in_users_book_witness :
    ([CacheKey.eventsAll, CacheKey.analyticsData, CacheKey.eventDetail 1,
      CacheKey.userBookings 1] : List CacheKey) =
      [CacheKey.eventsAll, CacheKey.analyticsData, CacheKey.eventDetail raceState.id,
        CacheKey.userBookings 1] ∧
    opDeletedKeys raceState (Op.bookEvent 1 5) = [] ∧
    opDeletedKeys raceState (Op.cancel 5 6) = [] ∧
    opDeletedKeys raceState (Op.usersCancel 5) = [] ∧
    opDeletedKeys raceState (Op.join 1 7) = [] ∧
    opDeletedKeys raceState (Op.leave 1) = [] ∧
    opDeletedKeys raceState (Op.promote 6) = [] :=
  cache_invalidation_only_in_users_book raceState 1 5 6 7 usersBookedState
    [CacheKey.eventsAll, CacheKey.analyticsData, CacheKey.eventDetail 1,
      CacheKey.userBookings 1] (by decide) (by decide)

/-- C10: on the in-process fallback path, get_cache after set_cache
returns the stored value as long as the current time is strictly below
the stored expiry (set time plus ttl) and leaves the cache untouched;
once the ttl has elapsed it returns none and the returned cache no
longer holds the key, so a stale value is never served past expiry. -/
theorem fallback_cache_ttl {α : Type} (c : MemoryCache α) (k : String) (v : α)
    (ttl t0 t1 : Nat) :
    (t1 < t0 + ttl →
      get_cache (set_cache c k v ttl t0) k t1 = (set_cache c k v ttl t0, some v)) ∧
    (t0 + ttl ≤ t1 →
      (get_cache (set_cache c k v ttl t0) k t1).2 = none ∧
      (get_cache (set_cache c k v ttl t0) k t1).1 k = none) := by
  have hk : set_cache c k v ttl t0 k = some { value := v, expiry := t0 + ttl } := by
    unfold set_cache
    rw [if_pos rfl]
  constructor
  · intro h
    unfold get_cache
    rw [hk]
    exact if_pos h
  · intro h
    have hrw : get_cache (set_cache c k v ttl t0) k t1 =
        ((fun k2 => if k2 = k then none else set_cache c k v ttl t0 k2), none) := by
      unfold get_cache
      rw [hk]
      exact if_neg (Nat.not_lt.mpr h)
    rw [hrw]
    exact ⟨rfl, if_pos rfl⟩

/-- The empty fallback cache (the module-level dict starts empty). -/
def emptyCache : MemoryCache Nat := fun _ => none

theorem fallback_cache_ttl_witness :
    (get_cache (set_cache emptyCache ("k") 42 10 0) ("k") 5 =
      (set_cache emptyCache ("k") 42 10 0, some 42)) ∧
    ((get_cache (set_cache emptyCache ("k") 42 10 0) ("k") 10).2 = none ∧
     (get_cache (set_cache emptyCache ("k") 42 10 0) ("k") 10).1 ("k") = none) :=
  ⟨(fallback_cache_ttl emptyCache ("k") 42 10 0 5).1 (by decide),
   (fallback_cache_ttl emptyCache ("k") 42 10 0 10).2 (by decide)⟩

/-- Upper bound for the position fold: if every row is below m, so is the max. -/
lemma maxPosition_le {wl : List WaitlistEntry} {m : Nat}
    (h : ∀ w ∈ wl, w.position ≤ m) : maxPosition wl ≤ m := by
  induction wl with
  | nil => exact Nat.zero_le m
  | cons w ws ih =>
    have hw : maxPosition (w :: ws) = max w.position (maxPosition ws) := rfl
    rw [hw]
    exact max_le (h w (List.mem_cons_self w ws))
      (ih (fun x hx => h x (List.mem_cons_of_mem w hx)))

/-- Every row position is below the position fold. -/
lemma le_maxPosition {wl : List WaitlistEntry} {w : WaitlistEntry}
    (h : w ∈ wl) : w.position ≤ maxPosition wl := by
  induction wl with
  | nil => cases h
  | cons x xs ih =>
    have hw : maxPosition (x :: xs) = max x.position (maxPosition xs) := rfl
    rw [hw]
    rcases List.mem_cons.mp h with h1 | h1
    · rw [h1]
      exact le_max_left _ _
    · exact le_trans (ih h1) (le_max_right _ _)

/-- The front-row fold returns a member of the list. -/
lemma minPosFold_mem (e : WaitlistEntry) (es : List WaitlistEntry) :
    minPosFold e es ∈ e :: es := by
  induction es generalizing e with
  | nil => exact List.mem_cons_self e []
  | cons w ws ih =>
    have hstep : minPosFold e (w :: ws) =
        minPosFold (if w.position < e.position then w else e) ws := rfl
    rw [hstep]
    rcases List.mem_cons.mp (ih (if w.position < e.position then w else e)) with h1 | h1
    · rw [h1]
      split
      · exact List.mem_cons_of_mem e (List.mem_cons_self w ws)
      · exact List.mem_cons_self e _
    · exact List.mem_cons_of_mem e (List.mem_cons_of_mem w h1)

/-- The front-row fold attains the minimal position. -/
lemma minPosFold_min (e : WaitlistEntry) (es : List WaitlistEntry) :
    ∀ w ∈ e :: es, (minPosFold e es).position ≤ w.position := by
  induction es generalizing e with
  | nil =>
    intro w hw
    rcases List.mem_cons.mp hw with h1 | h1
    · rw [h1]
      exact Nat.le_refl _
    · cases h1
  | cons w0 ws ih =>
    intro w hw
    have hstep : minPosFold e (w0 :: ws) =
        minPosFold (if w0.position < e.position then w0 else e) ws := rfl
    rw [hstep]
    have hminele : (minPosFold (if w0.position < e.position then w0 else e) ws).position ≤
        (if w0.position < e.position then w0 else e).position :=
      ih _ _ (List.mem_cons_self _ ws)
    have hele : (if w0.position < e.position then w0 else e).position ≤ e.position := by
      split
      · next hc => exact Nat.le_of_lt hc
      · exact Nat.le_refl _
    have helw0 : (if w0.position < e.position then w0 else e).position ≤ w0.position := by
      split
      · exact Nat.le_refl _
      · next hc => exact Nat.le_of_not_lt hc
    rcases List.mem_cons.mp hw with h1 | h1
    · rw [h1]
      exact le_trans hminele hele
    · rcases List.mem_cons.mp h1 with h2 | h2
      · rw [h2]
        exact le_trans hminele helw0
      · exact ih _ _ (List.mem_cons_of_mem _ h2)

/-- firstByPosition returns a member of the list. -/
lemma firstByPosition_mem {wl : List WaitlistEntry} {e : WaitlistEntry}
    (h : firstByPosition wl = some e) : e ∈ wl := by
  cases wl with
  | nil => exact Option.noConfusion h
  | cons w ws =>
    have hs : firstByPosition (w :: ws) = some (minPosFold w ws) := rfl
    rw [hs] at h
    injection h with h1
    rw [← h1]
    exact minPosFold_mem w ws

/-- firstByPosition returns a row of minimal position. -/
lemma firstByPosition_min {wl : List WaitlistEntry} {e : WaitlistEntry}
    (h : firstByPosition wl = some e) : ∀ w ∈ wl, e.position ≤ w.position := by
  cases wl with
  | nil => exact Option.noConfusion h
  | cons w ws =>
    have hs : firstByPosition (w :: ws) = some (minPosFold w ws) := rfl
    rw [hs] at h
    injection h with h1
    rw [← h1]
    exact minPosFold_min w ws

/-- countP over a cons, stated for the BOOKED count. -/
lemma countBooked_cons (b : Booking) (bs : List Booking) :
    countBooked (b :: bs) =
      countBooked bs + (if b.status = BookingStatus.BOOKED then 1 else 0) := by
  unfold countBooked
  rw [List.countP_cons]
  by_cases hb : b.status = BookingStatus.BOOKED
  · rw [if_pos hb, if_pos (by simpa using hb)]
  · rw [if_neg hb, if_neg (by simpa using hb)]

/-- BOOKED count over an append. -/
lemma countBooked_append (l1 l2 : List Booking) :
    countBooked (l1 ++ l2) = countBooked l1 + countBooked l2 :=
  List.countP_append _ l1 l2

/-- The cancellation mutation removes exactly one row from the BOOKED
count when the filtered query found a row. -/
lemma countBooked_cancelFirstActive {l : List Booking} {bid : Nat}
    (h : (l.find? (fun b => decide (b.id = bid ∧ b.status = BookingStatus.BOOKED))).isSome) :
    countBooked (cancelFirstActive l bid) + 1 = countBooked l := by
  induction l with
  | nil => exact absurd h (by simp [List.find?])
  | cons b bs ih =>
    by_cases hb : b.id = bid ∧ b.status = BookingStatus.BOOKED
    · have hc : cancelFirstActive (b :: bs) bid =
          { b with status := BookingStatus.CANCELLED } :: bs := by
        simp only [cancelFirstActive]
        rw [if_pos hb]
      rw [hc, countBooked_cons, countBooked_cons]
      have h1 : ({ b with status := BookingStatus.CANCELLED } : Booking).status =
          BookingStatus.CANCELLED := rfl
      rw [h1, if_neg (by simp), if_pos hb.2]
    · have hc : cancelFirstActive (b :: bs) bid = b :: cancelFirstActive bs bid := by
        simp only [cancelFirstActive]
        rw [if_neg hb]
      have hfind : (bs.find?
          (fun b => decide (b.id = bid ∧ b.status = BookingStatus.BOOKED))).isSome := by
        rw [List.find?_cons_of_neg bs (by simpa using hb)] at h
        exact h
      rw [hc, countBooked_cons, countBooked_cons]
      have := ih hfind
      omega

/-- Decrementing a shifted range: mapping q - 1 over a..a+n-1 shifted by
one gives the range starting at a. -/
lemma map_pred_range' : ∀ (n a : Nat),
    (List.range' (a + 1) n).map (fun q => q - 1) = List.range' a n := by
  intro n
  induction n with
  | zero => intro a; rfl
  | succ m ih =>
    intro a
    show ((a + 1) :: List.range' (a + 2) m).map (fun q => q - 1) =
      a :: List.range' (a + 1) m
    rw [List.map_cons, ih (a + 1)]
    rfl

/-- Removing one value p from the contiguous range a..a+n-1 and shifting
the values above p down by one yields the contiguous range a..a+n-2. -/
lemma range'_erase_shift : ∀ (n a p : Nat), a ≤ p → p < a + n →
    ((List.range' a n).erase p).map (fun q => if p < q then q - 1 else q) =
      List.range' a (n - 1) := by
  intro n
  induction n with
  | zero =>
    intro a p h1 h2
    omega
  | succ m ih =>
    intro a p h1 h2
    by_cases hp : p = a
    · subst hp
      have he : (List.range' p (m + 1)).erase p = List.range' (p + 1) m := by
        show ((p :: List.range' (p + 1) m) : List Nat).erase p = _
        exact List.erase_cons_head p _
      rw [he]
      have hmap : (List.range' (p + 1) m).map (fun q => if p < q then q - 1 else q) =
          (List.range' (p + 1) m).map (fun q => q - 1) := by
        apply List.map_congr_left
        intro q hq
        have hq1 := (List.mem_range'_1.mp hq).1
        rw [if_pos (by omega)]
      rw [hmap, map_pred_range']
      rfl
    · have hne : a ≠ p := fun hh => hp hh.symm
      have ha : a < p := lt_of_le_of_ne h1 hne
      have hm1 : 1 ≤ m := by omega
      have he : (List.range' a (m + 1)).erase p = a :: (List.range' (a + 1) m).erase p := by
        show ((a :: List.range' (a + 1) m) : List Nat).erase p = _
        exact List.erase_cons_tail (by simp [hne])
      rw [he, List.map_cons]
      have hfa : (if p < a then a - 1 else a) = a := if_neg (by omega)
      rw [hfa, ih (a + 1) p (by omega) (by omega)]
      obtain ⟨k, rfl⟩ : ∃ k, m = k + 1 := ⟨m - 1, by omega⟩
      rfl

/-- find? over a split list whose prefix rejects the predicate. -/
lemma find?_prefix_none {α : Type} (p : α → Bool) (l1 l2 : List α) (a : α)
    (h1 : ∀ b ∈ l1, ¬ p b = true) (h2 : p a = true) :
    (l1 ++ a :: l2).find? p = some a := by
  induction l1 with
  | nil => exact List.find?_cons_of_pos l2 h2
  | cons b bs ih =>
    rw [List.cons_append, List.find?_cons_of_neg _ (h1 b (List.mem_cons_self b bs))]
    exact ih (fun x hx => h1 x (List.mem_cons_of_mem b hx))

/-- The row returned by find? splits the list, and eraseP with the same
predicate removes exactly that row. -/
lemma eraseP_split {α : Type} (p : α → Bool) (l : List α) (e : α)
    (h : l.find? p = some e) :
    ∃ l1 l2, l = l1 ++ e :: l2 ∧ (∀ b ∈ l1, ¬ p b = true) ∧ l.eraseP p = l1 ++ l2 := by
  have hmem := List.mem_of_find?_eq_some h
  have hpe := List.find?_some h
  obtain ⟨a, l1, l2, hnone, hpa, heq, herase⟩ := List.exists_of_eraseP hmem hpe
  have hfind2 : l.find? p = some a := by
    rw [heq]
    exact find?_prefix_none p l1 l2 a hnone hpa
  rw [h] at hfind2
  injection hfind2 with hea
  rw [← hea] at heq
  exact ⟨l1, l2, heq, hnone, herase⟩

/-- Removing one split-out element from a list removes its image from any
multiset-equal value list. -/
lemma perm_map_erase_of_split {α : Type} (f : α → Nat) {l l1 l2 : List α} {e : α}
    {R : List Nat} (hperm : List.Perm (l.map f) R) (heq : l = l1 ++ e :: l2) :
    List.Perm ((l1 ++ l2).map f) (R.erase (f e)) := by
  have h1 : l.map f = l1.map f ++ f e :: l2.map f := by
    rw [heq, List.map_append, List.map_cons]
  have hmem : f e ∈ R := hperm.mem_iff.mp
    (by rw [h1]; exact List.mem_append_right _ (List.mem_cons_self _ _))
  have hA : List.Perm (f e :: (l1.map f ++ l2.map f)) (l.map f) := by
    rw [h1]
    exact List.perm_middle.symm
  have hB : List.Perm (f e :: (l1.map f ++ l2.map f)) (f e :: R.erase (f e)) :=
    (hA.trans hperm).trans (List.perm_cons_erase hmem)
  have hC := hB.cons_inv
  rw [List.map_append]
  exact hC

/-- Core renumbering argument: erasing the first row matched by any
predicate and decrementing the positions above the erased position keeps
the positions contiguous. -/
lemma contiguous_eraseP_shift {wl : List WaitlistEntry} {p : WaitlistEntry → Bool}
    {e : WaitlistEntry} (hcont : contiguousPositions wl)
    (hfind : wl.find? p = some e) :
    contiguousPositions ((wl.eraseP p).map (shiftDown e.position)) := by
  obtain ⟨l1, l2, heq, hnone, herase⟩ := eraseP_split p wl e hfind
  have hmem : e ∈ wl := List.mem_of_find?_eq_some hfind
  have hcont2 : List.Perm (wl.map (fun w => w.position))
      (List.range' 1 wl.length) := hcont
  have hposmem : e.position ∈ wl.map (fun w => w.position) :=
    List.mem_map_of_mem _ hmem
  have hbounds := List.mem_range'_1.mp (hcont2.mem_iff.mp hposmem)
  have hperm1 : List.Perm ((l1 ++ l2).map (fun w => w.position))
      ((List.range' 1 wl.length).erase e.position) :=
    perm_map_erase_of_split _ hcont2 heq
  have hperm2 := hperm1.map (fun q => if e.position < q then q - 1 else q)
  have hrhs : ((List.range' 1 wl.length).erase e.position).map
      (fun q => if e.position < q then q - 1 else q) = List.range' 1 (wl.length - 1) :=
    range'_erase_shift wl.length 1 e.position hbounds.1 (by omega)
  have hcomm : ((wl.eraseP p).map (shiftDown e.position)).map (fun w => w.position) =
      ((l1 ++ l2).map (fun w => w.position)).map
        (fun q => if e.position < q then q - 1 else q) := by
    rw [herase, List.map_map, List.map_map]
    apply List.map_congr_left
    intro w hw
    simp only [Function.comp]
    unfold shiftDown
    split
    · rfl
    · rfl
  have hlen : ((wl.eraseP p).map (shiftDown e.position)).length = wl.length - 1 := by
    rw [List.length_map]
    exact List.length_eraseP_of_mem hmem (List.find?_some hfind)
  unfold contiguousPositions
  rw [hcomm, hlen, ← hrhs]
  exact hperm2

/-- Under contiguity the maximal position equals the queue length. -/
lemma maxPosition_eq_length {wl : List WaitlistEntry}
    (hcont : contiguousPositions wl) : maxPosition wl = wl.length := by
  have hcont2 : List.Perm (wl.map (fun w => w.position))
      (List.range' 1 wl.length) := hcont
  have hub : ∀ w ∈ wl, w.position ≤ wl.length := by
    intro w hw
    have h1 : w.position ∈ wl.map (fun x => x.position) := List.mem_map_of_mem _ hw
    have h2 := (List.mem_range'_1.mp (hcont2.mem_iff.mp h1)).2
    omega
  have hle : maxPosition wl ≤ wl.length := maxPosition_le hub
  rcases Nat.eq_zero_or_pos wl.length with h0 | hpos
  · have hnil : wl = [] := List.eq_nil_of_length_eq_zero h0
    rw [hnil]
    rfl
  · have hNmem : wl.length ∈ List.range' 1 wl.length :=
      List.mem_range'_1.mpr ⟨hpos, by omega⟩
    obtain ⟨w, hw, hwp⟩ := List.mem_map.mp (hcont2.mem_iff.mpr hNmem)
    have := le_maxPosition hw
    omega

/-- Appending a row at position (max + 1) keeps the positions contiguous. -/
lemma contiguous_append_next {wl : List WaitlistEntry}
    (hcont : contiguousPositions wl) (wid uid : Nat) :
    contiguousPositions
      (wl ++ [⟨wid, uid, get_next_waitlist_position wl⟩]) := by
  have hcont2 : List.Perm (wl.map (fun w => w.position))
      (List.range' 1 wl.length) := hcont
  have hmax : get_next_waitlist_position wl = wl.length + 1 := by
    unfold get_next_waitlist_position
    rw [maxPosition_eq_length hcont]
  unfold contiguousPositions
  rw [List.map_append, List.length_append]
  have h1 : ([⟨wid, uid, get_next_waitlist_position wl⟩] :
      List WaitlistEntry).map (fun w => w.position) = [wl.length + 1] := by
    rw [List.map_cons, List.map_nil, hmax]
  have h2 : (([⟨wid, uid, get_next_waitlist_position wl⟩] :
      List WaitlistEntry)).length = 1 := rfl
  rw [h1, h2]
  have hr : List.range' 1 (wl.length + 1) = List.range' 1 wl.length ++ [1 + wl.length] := by
    have h := @List.range'_concat 1 1 wl.length
    simpa using h
  rw [hr]
  have h3 : 1 + wl.length = wl.length + 1 := Nat.add_comm 1 _
  rw [h3]
  exact List.Perm.append_right _ hcont2

/-- The empty waitlist is contiguous. -/
lemma contiguous_nil : contiguousPositions [] := List.Perm.nil

/-- Success shape of book_event: the committed state is the write phase
applied to the read count, which was below capacity. -/
lemma book_event_ok {s : EventState} {uid bid : Nat} {s1 : EventState}
    (h : book_event s uid bid = Except.ok s1) :
    s1 = book_event_commit s uid bid (countBooked s.bookings) ∧
      countBooked s.bookings < s.capacity := by
  unfold book_event at h
  cases hc : book_event_check s uid with
  | error e =>
    rw [hc] at h
    exact Except.noConfusion h
  | ok a =>
    rw [hc] at h
    injection h with h1
    obtain ⟨ha, hlt⟩ := book_event_check_ok hc
    subst ha
    exact ⟨h1.symm, hlt⟩

/-- Success shape of book_ticket. -/
lemma book_ticket_ok {s : EventState} {uid bid : Nat} {r : EventState × List CacheKey}
    (h : book_ticket s uid bid = Except.ok r) :
    r.1.bookings = s.bookings ++
        [{ id := bid, user_id := uid, status := BookingStatus.BOOKED }] ∧
      r.1.booked_count = s.booked_count + 1 ∧
      r.1.waitlist = s.waitlist ∧
      r.1.capacity = s.capacity ∧
      s.booked_count < (s.capacity : Int) := by
  unfold book_ticket at h
  split at h
  · exact Except.noConfusion h
  next hlt =>
    injection h with h1
    rw [← h1]
    exact ⟨rfl, rfl, rfl, rfl, not_le.mp hlt⟩

/-- Success shape of cancel_booking: the filtered query found a BOOKED
row with the id, and the response state is one promotion attempt applied
to the state with that row cancelled and the counter decremented. -/
lemma cancel_booking_ok {s : EventState} {bid pid : Nat} {r : EventState × Bool}
    (h : cancel_booking s bid pid = Except.ok r) :
    (s.bookings.find?
        (fun b => decide (b.id = bid ∧ b.status = BookingStatus.BOOKED))).isSome ∧
      r = move_from_waitlist_to_booking
        { s with
            bookings := cancelFirstActive s.bookings bid,
            booked_count := max 0 (s.booked_count - 1) } pid := by
  unfold cancel_booking at h
  cases hf : s.bookings.find?
      (fun b => decide (b.id = bid ∧ b.status = BookingStatus.BOOKED)) with
  | none =>
    rw [hf] at h
    exact Except.noConfusion h
  | some b =>
    rw [hf] at h
    injection h with h1
    exact ⟨rfl, h1.symm⟩

/-- Success shape of join_waitlist. -/
lemma join_waitlist_ok {s : EventState} {uid wid : Nat}
    {r : EventState × WaitlistEntry}
    (h : join_waitlist s uid wid = Except.ok r) :
    r.1.waitlist = s.waitlist ++
        [⟨wid, uid, get_next_waitlist_position s.waitlist⟩] ∧
      r.1.bookings = s.bookings ∧
      r.1.booked_count = s.booked_count ∧
      r.1.capacity = s.capacity := by
  unfold join_waitlist at h
  split at h
  · exact Except.noConfusion h
  split at h
  · exact Except.noConfusion h
  split at h
  · exact Except.noConfusion h
  dsimp only at h
  split at h
  · exact Except.noConfusion h
  injection h with h1
  rw [← h1]
  exact ⟨rfl, rfl, rfl, rfl⟩

/-- Success shape of leave_waitlist. -/
lemma leave_waitlist_ok {s : EventState} {uid : Nat} {s1 : EventState}
    (h : leave_waitlist s uid = Except.ok s1) :
    ∃ e, s.waitlist.find? (fun w => decide (w.user_id = uid)) = some e ∧
      s1.waitlist = (s.waitlist.eraseP
        (fun w => decide (w.user_id = uid))).map (shiftDown e.position) ∧
      s1.bookings = s.bookings ∧
      s1.booked_count = s.booked_count ∧
      s1.capacity = s.capacity := by
  unfold leave_waitlist at h
  cases hf : s.waitlist.find? (fun w => decide (w.user_id = uid)) with
  | none =>
    rw [hf] at h
    exact Except.noConfusion h
  | some e =>
    rw [hf] at h
    injection h with h1
    rw [← h1]
    exact ⟨e, rfl, rfl, rfl, rfl, rfl⟩

/-- The users.py cancel route never changes the state: it raises on every
path (404 when the row is absent, AttributeError otherwise). -/
lemma users_cancel_unchanged (s : EventState) (bid : Nat) :
    applyOp s (Op.usersCancel bid) = s := by
  have h : applyOp s (Op.usersCancel bid) =
      (match users_cancel_booking s bid with
        | Except.ok s1 => s1
        | Except.error _ => s) := rfl
  rw [h]
  unfold users_cancel_booking
  cases hf : s.bookings.find? (fun b => decide (b.id = bid)) <;> rfl

/-- One promotion attempt keeps the waitlist positions contiguous. -/
lemma move_contiguous (s : EventState) (pid : Nat)
    (h : contiguousPositions s.waitlist) :
    contiguousPositions (move_from_waitlist_to_booking s pid).1.waitlist := by
  unfold move_from_waitlist_to_booking
  dsimp only
  split
  · exact h
  cases hf : firstByPosition s.waitlist with
  | none => exact h
  | some e =>
    have hmem : e ∈ s.waitlist := firstByPosition_mem hf
    have hsome : ∃ e2, s.waitlist.find?
        (fun w => decide (w.position = e.position)) = some e2 := by
      cases hf2 : s.waitlist.find? (fun w => decide (w.position = e.position)) with
      | some e2 => exact ⟨e2, rfl⟩
      | none =>
        rw [List.find?_eq_none] at hf2
        exact absurd (by simp : decide (e.position = e.position) = true)
          (hf2 e hmem)
    obtain ⟨e2, hf2⟩ := hsome
    have hpe2 : e2.position = e.position := by
      have := List.find?_some hf2
      simpa using this
    have hres := contiguous_eraseP_shift h hf2
    rw [hpe2] at hres
    exact hres

/-- Every request handler keeps the waitlist positions contiguous. -/
lemma applyOp_contiguous {s : EventState} (op : Op)
    (h : contiguousPositions s.waitlist) :
    contiguousPositions (applyOp s op).waitlist := by
  cases op with
  | bookEvent uid bid =>
    simp only [applyOp]
    cases hb : book_event s uid bid with
    | error e => exact h
    | ok s1 =>
      obtain ⟨hs1, _⟩ := book_event_ok hb
      rw [hs1]
      exact h
  | bookTicket uid bid =>
    simp only [applyOp]
    cases hb : book_ticket s uid bid with
    | error e => exact h
    | ok r =>
      obtain ⟨_, _, hw, _, _⟩ := book_ticket_ok hb
      rw [hw]
      exact h
  | cancel bid pid =>
    simp only [applyOp]
    cases hb : cancel_booking s bid pid with
    | error e => exact h
    | ok r =>
      obtain ⟨_, hr⟩ := cancel_booking_ok hb
      rw [hr]
      exact move_contiguous _ pid h
  | usersCancel bid =>
    rw [users_cancel_unchanged]
    exact h
  | join uid wid =>
    simp only [applyOp]
    cases hb : join_waitlist s uid wid with
    | error e => exact h
    | ok r =>
      obtain ⟨hw, _, _, _⟩ := join_waitlist_ok hb
      rw [hw]
      exact contiguous_append_next h wid uid
  | leave uid =>
    simp only [applyOp]
    cases hb : leave_waitlist s uid with
    | error e => exact h
    | ok s1 =>
      obtain ⟨e, hf, hw, _, _, _⟩ := leave_waitlist_ok hb
      rw [hw]
      exact contiguous_eraseP_shift h hf
  | promote pid => exact move_contiguous s pid h

/-- Contiguity is preserved along any request sequence. -/
lemma runOps_contiguous (ops : List Op) : ∀ s : EventState,
    contiguousPositions s.waitlist → contiguousPositions (runOps s ops).waitlist := by
  induction ops with
  | nil => exact fun s h => h
  | cons op rest ih =>
    intro s h
    have hstep : runOps s (op :: rest) = runOps (applyOp s op) rest := rfl
    rw [hstep]
    exact ih _ (applyOp_contiguous op h)

/-- C3: starting from an empty waitlist, after any sequence of requests
(book, cancel, join, leave, promote, through any of the routes) the
multiset of waitlist positions of the event is exactly 1..N for N the
current number of entries — no gaps, no duplicates — after every step. -/
theorem waitlist_positions_always_contiguous (ops : List Op) (eid cap : Nat)
    (bc : Int) (bs : List Booking) (us : List Nat) :
    contiguousPositions (runOps
      { id := eid, capacity := cap, booked_count := bc, bookings := bs,
        waitlist := [], users := us } ops).waitlist :=
  runOps_contiguous ops _ contiguous_nil

/-- The occupancy invariant of one event: the cached counter equals the
live BOOKED count and that count is within capacity. -/
def counterInv (s : EventState) : Prop :=
  s.booked_count = (countBooked s.bookings : Int) ∧
    countBooked s.bookings ≤ s.capacity

/-- A single BOOKED row counts as one. -/
lemma countBooked_single_booked (i u : Nat) :
    countBooked [⟨i, u, BookingStatus.BOOKED⟩] = 1 := rfl

/-- One promotion attempt preserves the occupancy invariant (and even
resynchronizes the counter when it fires, since it recounts live rows). -/
lemma move_counterInv (s : EventState) (pid : Nat) (h : counterInv s) :
    counterInv (move_from_waitlist_to_booking s pid).1 := by
  unfold move_from_waitlist_to_booking
  dsimp only
  split
  · exact h
  next hlt =>
    cases hf : firstByPosition s.waitlist with
    | none => exact h
    | some e =>
      have hcount : countBooked (s.bookings ++
          [{ id := pid, user_id := e.user_id, status := BookingStatus.BOOKED }]) =
          countBooked s.bookings + 1 := by
        rw [countBooked_append, countBooked_single_booked]
      constructor
      · show (countBooked s.bookings : Int) + 1 = _
        rw [hcount]
        omega
      · show countBooked (s.bookings ++ _) ≤ s.capacity
        rw [hcount]
        omega

/-- Every request handler preserves the occupancy invariant. -/
lemma applyOp_counterInv {s : EventState} (op : Op) (h : counterInv s) :
    counterInv (applyOp s op) := by
  cases op with
  | bookEvent uid bid =>
    simp only [applyOp]
    cases hb : book_event s uid bid with
    | error e => exact h
    | ok s1 =>
      obtain ⟨hs1, hlt⟩ := book_event_ok hb
      rw [hs1]
      constructor
      · show (countBooked s.bookings : Int) + 1 =
          (countBooked (s.bookings ++ _) : Int)
        rw [countBooked_append, countBooked_single_booked]
        omega
      · show countBooked (s.bookings ++ _) ≤ s.capacity
        rw [countBooked_append, countBooked_single_booked]
        omega
  | bookTicket uid bid =>
    simp only [applyOp]
    cases hb : book_ticket s uid bid with
    | error e => exact h
    | ok r =>
      obtain ⟨hbk, hbc, _, hcap, hlt⟩ := book_ticket_ok hb
      obtain ⟨hinv1, hinv2⟩ := h
      have h2 : countBooked s.bookings < s.capacity := by
        rw [hinv1] at hlt
        exact_mod_cast hlt
      constructor
      · rw [hbc, hbk, countBooked_append, countBooked_single_booked, hinv1]
        omega
      · rw [hbk, hcap, countBooked_append, countBooked_single_booked]
        omega
  | cancel bid pid =>
    simp only [applyOp]
    cases hb : cancel_booking s bid pid with
    | error e => exact h
    | ok r =>
      obtain ⟨hfind, hr⟩ := cancel_booking_ok hb
      obtain ⟨hinv1, hinv2⟩ := h
      rw [hr]
      apply move_counterInv
      have hdec := countBooked_cancelFirstActive hfind
      have hcnt1 : 1 ≤ countBooked s.bookings := by omega
      constructor
      · show max 0 (s.booked_count - 1) =
          (countBooked (cancelFirstActive s.bookings bid) : Int)
        rw [hinv1]
        rw [max_eq_right (by omega : (0 : Int) ≤ (countBooked s.bookings : Int) - 1)]
        omega
      · show countBooked (cancelFirstActive s.bookings bid) ≤ s.capacity
        omega
  | usersCancel bid =>
    rw [users_cancel_unchanged]
    exact h
  | join uid wid =>
    simp only [applyOp]
    cases hb : join_waitlist s uid wid with
    | error e => exact h
    | ok r =>
      obtain ⟨_, hbk, hbc, hcap⟩ := join_waitlist_ok hb
      obtain ⟨hinv1, hinv2⟩ := h
      exact ⟨by rw [hbc, hbk]; exact hinv1, by rw [hbk, hcap]; exact hinv2⟩
  | leave uid =>
    simp only [applyOp]
    cases hb : leave_waitlist s uid with
    | error e => exact h
    | ok s1 =>
      obtain ⟨e, hf, _, hbk, hbc, hcap⟩ := leave_waitlist_ok hb
      obtain ⟨hinv1, hinv2⟩ := h
      exact ⟨by rw [hbc, hbk]; exact hinv1, by rw [hbk, hcap]; exact hinv2⟩
  | promote pid => exact move_counterInv s pid h

/-- The occupancy invariant is preserved along any request sequence. -/
lemma runOps_counterInv (ops : List Op) : ∀ s : EventState,
    counterInv s → counterInv (runOps s ops) := by
  induction ops with
  | nil => exact fun s h => h
  | cons op rest ih =>
    intro s h
    have hstep : runOps s (op :: rest) = runOps (applyOp s op) rest := rfl
    rw [hstep]
    exact ih _ (applyOp_counterInv op h)

/-- A freshly created event row: both creation routes write
booked_count 0 and an event starts with no bookings and no waitlist. -/
def freshEvent (eid cap : Nat) (us : List Nat) : EventState :=
  { id := eid, capacity := cap, booked_count := 0, bookings := [],
    waitlist := [], users := us }

/-- C5: starting from a freshly created event (booked_count 0, no
bookings), after any sequence of requests the stored booked_count equals
the live count of BOOKED bookings and lies between 0 and the capacity. -/
theorem booked_count_always_consistent (ops : List Op) (eid cap : Nat)
    (us : List Nat) :
    (runOps (freshEvent eid cap us) ops).booked_count =
      (countBooked (runOps (freshEvent eid cap us) ops).bookings : Int) ∧
    0 ≤ (runOps (freshEvent eid cap us) ops).booked_count ∧
    (runOps (freshEvent eid cap us) ops).booked_count ≤
      ((runOps (freshEvent eid cap us) ops).capacity : Int) := by
  have hinit : counterInv (freshEvent eid cap us) := ⟨rfl, Nat.zero_le _⟩
  obtain ⟨h1, h2⟩ := runOps_counterInv ops _ hinit
  refine ⟨h1, ?_, ?_⟩ <;> omega

/-- When the event is not full and the waitlist has a front row, the
promotion fires and produces exactly the promoted state. -/
lemma move_fires (s : EventState) (pid : Nat) (e : WaitlistEntry)
    (hnf : ¬ s.capacity ≤ countBooked s.bookings)
    (hf : firstByPosition s.waitlist = some e) :
    move_from_waitlist_to_booking s pid =
      ({ s with
          bookings := s.bookings ++
            [{ id := pid, user_id := e.user_id, status := BookingStatus.BOOKED }],
          waitlist := (s.waitlist.eraseP (fun w => decide (w.position = e.position))).map
            (shiftDown e.position),
          booked_count := (countBooked s.bookings : Int) + 1 }, true) := by
  unfold move_from_waitlist_to_booking
  dsimp only
  rw [if_neg hnf, hf]

/-- The intermediate state cancel_booking commits before it attempts the
promotion: the found row cancelled, the counter decremented. -/
def cancelledState (s : EventState) (bid : Nat) : EventState :=
  { s with
      bookings := cancelFirstActive s.bookings bid,
      booked_count := max 0 (s.booked_count - 1) }

/-- C4: on a full event (live BOOKED count equal to capacity) with a
non-empty waitlist, cancelling any BOOKED booking leaves the occupancy
unchanged overall, converts the front waitlist row (which has position 1
by contiguity) into a new BOOKED booking for that user, removes that row
and decrements the position of every remaining row by one. -/
theorem cancel_full_event_promotes_front (s : EventState) (bid pid : Nat)
    (e : WaitlistEntry)
    (hocc : countBooked s.bookings = s.capacity)
    (hcont : contiguousPositions s.waitlist)
    (hfirst : firstByPosition s.waitlist = some e)
    (hfind : (s.bookings.find?
      (fun b => decide (b.id = bid ∧ b.status = BookingStatus.BOOKED))).isSome) :
    e.position = 1 ∧
    cancel_booking s bid pid = Except.ok
      ({ s with
          bookings := cancelFirstActive s.bookings bid ++
            [{ id := pid, user_id := e.user_id, status := BookingStatus.BOOKED }],
          waitlist := (s.waitlist.eraseP (fun w => decide (w.position = 1))).map
            (fun w => ⟨w.id, w.user_id, w.position - 1⟩),
          booked_count := (s.capacity : Int) }, true) ∧
    countBooked (cancelFirstActive s.bookings bid ++
      [{ id := pid, user_id := e.user_id, status := BookingStatus.BOOKED }]) =
      countBooked s.bookings := by
  have hmem : e ∈ s.waitlist := firstByPosition_mem hfirst
  have hcont2 : List.Perm (s.waitlist.map (fun w => w.position))
      (List.range' 1 s.waitlist.length) := hcont
  have hN1 : 1 ≤ s.waitlist.length := by
    cases hw : s.waitlist with
    | nil =>
      rw [hw] at hmem
      cases hmem
    | cons a l =>
      exact Nat.succ_le_succ (Nat.zero_le _)
  have h1mem : (1 : Nat) ∈ List.range' 1 s.waitlist.length :=
    List.mem_range'_1.mpr ⟨Nat.le_refl 1, by omega⟩
  obtain ⟨w1, hw1mem, hw1pos⟩ := List.mem_map.mp (hcont2.mem_iff.mpr h1mem)
  have hminle : e.position ≤ 1 := hw1pos ▸ firstByPosition_min hfirst w1 hw1mem
  have hposge : 1 ≤ e.position :=
    (List.mem_range'_1.mp (hcont2.mem_iff.mp (List.mem_map_of_mem _ hmem))).1
  have hpos1 : e.position = 1 := le_antisymm hminle hposge
  have hdec := countBooked_cancelFirstActive hfind
  have hcount3 : countBooked (cancelFirstActive s.bookings bid ++
      [{ id := pid, user_id := e.user_id, status := BookingStatus.BOOKED }]) =
      countBooked s.bookings := by
    rw [countBooked_append, countBooked_single_booked]
    omega
  refine ⟨hpos1, ?_, hcount3⟩
  obtain ⟨b0, hf⟩ : ∃ b0, s.bookings.find?
      (fun b => decide (b.id = bid ∧ b.status = BookingStatus.BOOKED)) = some b0 := by
    cases hfx : s.bookings.find?
        (fun b => decide (b.id = bid ∧ b.status = BookingStatus.BOOKED)) with
    | none =>
      rw [hfx] at hfind
      exact absurd hfind (by simp)
    | some b0 => exact ⟨b0, rfl⟩
  have hcancel : cancel_booking s bid pid =
      Except.ok (move_from_waitlist_to_booking (cancelledState s bid) pid) := by
    unfold cancel_booking
    rw [hf]
    rfl
  have hnotfull : ¬ (cancelledState s bid).capacity ≤
      countBooked (cancelledState s bid).bookings := by
    show ¬ s.capacity ≤ countBooked (cancelFirstActive s.bookings bid)
    omega
  have hfirst2 : firstByPosition (cancelledState s bid).waitlist = some e := hfirst
  rw [hcancel, move_fires (cancelledState s bid) pid e hnotfull hfirst2]
  have heqw : ((s.waitlist.eraseP
      (fun w => decide (w.position = e.position))).map (shiftDown e.position)) =
      (s.waitlist.eraseP (fun w => decide (w.position = 1))).map
        (fun w => ⟨w.id, w.user_id, w.position - 1⟩) := by
    rw [hpos1]
    obtain ⟨e1, hf1⟩ : ∃ e1, s.waitlist.find?
        (fun w => decide (w.position = 1)) = some e1 := by
      cases hfx : s.waitlist.find? (fun w => decide (w.position = 1)) with
      | none =>
        rw [List.find?_eq_none] at hfx
        rw [← hpos1] at hw1pos
        exact absurd (by simp [hw1pos] : decide (w1.position = e.position) = true)
          (by rw [hpos1] at hw1pos ⊢; exact hfx w1 hw1mem)
      | some e1 => exact ⟨e1, rfl⟩
    have he1pos : e1.position = 1 := by
      have := List.find?_some hf1
      simpa using this
    obtain ⟨l1, l2, heq, hnone, herase⟩ := eraseP_split _ _ _ hf1
    have hperm1 : List.Perm ((l1 ++ l2).map (fun w => w.position))
        ((List.range' 1 s.waitlist.length).erase e1.position) :=
      perm_map_erase_of_split _ hcont2 heq
    rw [he1pos] at hperm1
    have hr : (List.range' 1 s.waitlist.length).erase 1 =
        List.range' 2 (s.waitlist.length - 1) := by
      obtain ⟨k, hk⟩ : ∃ k, s.waitlist.length = k + 1 := ⟨s.waitlist.length - 1, by omega⟩
      rw [hk]
      show ((1 :: List.range' 2 k) : List Nat).erase 1 = _
      rw [List.erase_cons_head]
      rfl
    rw [hr] at hperm1
    apply List.map_congr_left
    intro w hw
    have hwmem : w.position ∈ (l1 ++ l2).map (fun w => w.position) := by
      rw [← herase]
      exact List.mem_map_of_mem _ hw
    have h2le : 2 ≤ w.position :=
      (List.mem_range'_1.mp (hperm1.mem_iff.mp hwmem)).1
    unfold shiftDown
    rw [if_pos (by omega : 1 < w.position)]
  have heqc : (countBooked (cancelFirstActive s.bookings bid) : Int) + 1 =
      (s.capacity : Int) := by omega
  simp only [cancelledState]
  rw [heqw, heqc]

/-- A full capacity-1 event with a two-row waitlist, for the promotion
witness. -/
def promoState : EventState :=
  { id := 3, capacity := 1, booked_count := 1,
    bookings := [{ id := 1, user_id := 10, status := BookingStatus.BOOKED }],
    waitlist := [{ id := 1, user_id := 20, position := 1 },
                 { id := 2, user_id := 21, position := 2 }],
    users := [10, 20, 21] }

/-- The front waitlist row of promoState. -/
def promoFront : WaitlistEntry := { id := 1, user_id := 20, position := 1 }

theorem cancel_full_event_promotes_front_witness :
    promoFront.position = 1 ∧
    cancel_booking promoState 1 50 = Except.ok
      ({ promoState with
          bookings := cancelFirstActive promoState.bookings 1 ++
            [{ id := 50, user_id := promoFront.user_id, status := BookingStatus.BOOKED }],
          waitlist := (promoState.waitlist.eraseP
              (fun w => decide (w.position = 1))).map
            (fun w => ⟨w.id, w.user_id, w.position - 1⟩),
          booked_count := (promoState.capacity : Int) }, true) ∧
    countBooked (cancelFirstActive promoState.bookings 1 ++
      [{ id := 50, user_id := promoFront.user_id, status := BookingStatus.BOOKED }]) =
      countBooked promoState.bookings :=
  cancel_full_event_promotes_front promoState 1 50 promoFront (by decide) (by decide)
    (by decide) (by decide)
